import Mathlib

/-!
Verification of the mini-C compiler front end (`compiler.py`, `mini.py`).

`compiler.py` defines class `MiniCCompiler`: a PLY lexer, a PLY LALR parser
over a declaration-list grammar with symbol-table side effects, and a
recursive three-address-code (TAC) generator `generate_tac` driven by
`temp_count` / `label_count` counters.  `mini.py` is the second, smaller
variant of the pipeline (its labels are drawn from the single temporary
counter `temp_count` via `new_temp`).

The embedding below translates those sources into executable Lean
definitions: the lexer as a recursive scanner over `List Char`, the LALR
parse as a fuelled recursive-descent parser accepting exactly the grammar
of `compiler.py` (PLY halts at the first syntax error, reporting the
offending token; the descent below does the same), the TAC generator as a
state-passing recursion where each `self.tac.append(f"...")` becomes a
structured `Instr` constructor whose `render` is exactly the Python
f-string.
-/

namespace MiniC

/-! ### Tokens (compiler.py lines 24-47) -/

inductive TokKind where
  | INT | FLOAT | CHAR | VOID
  | IF | ELSE | WHILE | FOR | RETURN
  | ID | NUMBER | STRING
  | PLUS | MINUS | TIMES | DIVIDE | MODULO
  | ASSIGN | EQ | NE | LT | LE | GT | GE
  | AND | OR | NOT
  | LPAREN | RPAREN | LBRACE | RBRACE | LBRACKET | RBRACKET
  | SEMI | COMMA
  | PLUSPLUS | MINUSMINUS
deriving DecidableEq

/-- A numeric literal value: `t_NUMBER` converts to Python `int` when the
matched text has no dot, else to `float`.  A float is kept as its integer
and fractional digit strings (no claim below evaluates float arithmetic;
Python `str(float)` may normalize trailing zeros, which this rendering
does not reproduce — no theorem below depends on a float rendering). -/
inductive NumV where
  | intV (n : Nat)
  | floatV (ip fp : String)
deriving DecidableEq

/-- A PLY token value: identifier/keyword/operator text, or a number. -/
inductive TokVal where
  | str (s : String)
  | num (v : NumV)
deriving DecidableEq

structure Token where
  kind : TokKind
  val : TokVal
  line : Nat
deriving DecidableEq

/-- Python `str(...)` of a `NumV` (`str(5) = "5"`). -/
def numStr : NumV → String
  | .intV n => toString n
  | .floatV ip fp => ip ++ "." ++ fp

/-- Python `str(tok.value)`, used in error messages and token dumps. -/
def tokText : TokVal → String
  | .str s => s
  | .num v => numStr v

/-- PLY's `p.type` string for a token kind (the Python token names). -/
def kindName : TokKind → String
  | .INT => "INT" | .FLOAT => "FLOAT" | .CHAR => "CHAR" | .VOID => "VOID"
  | .IF => "IF" | .ELSE => "ELSE" | .WHILE => "WHILE" | .FOR => "FOR"
  | .RETURN => "RETURN"
  | .ID => "ID" | .NUMBER => "NUMBER" | .STRING => "STRING"
  | .PLUS => "PLUS" | .MINUS => "MINUS" | .TIMES => "TIMES"
  | .DIVIDE => "DIVIDE" | .MODULO => "MODULO"
  | .ASSIGN => "ASSIGN" | .EQ => "EQ" | .NE => "NE" | .LT => "LT"
  | .LE => "LE" | .GT => "GT" | .GE => "GE"
  | .AND => "AND" | .OR => "OR" | .NOT => "NOT"
  | .LPAREN => "LPAREN" | .RPAREN => "RPAREN"
  | .LBRACE => "LBRACE" | .RBRACE => "RBRACE"
  | .LBRACKET => "LBRACKET" | .RBRACKET => "RBRACKET"
  | .SEMI => "SEMI" | .COMMA => "COMMA"
  | .PLUSPLUS => "PLUSPLUS" | .MINUSMINUS => "MINUSMINUS"

/-! ### Lexer (compiler.py lines 49-110)

PLY matches, at each position: the function rules `t_ID`, `t_NUMBER`,
`t_STRING`, `t_newline`, `t_COMMENT` in definition order, then the string
rules sorted by decreasing pattern length (so `==` wins over `=`, `++`
over `+`, ...); spaces and tabs are in `t_ignore`; anything unmatched goes
to `t_error`, which records "Illegal character ..." and skips one
character.  The rule sets are disjoint by leading character, so the
scanner below dispatches on the head character. -/

/-- `[a-zA-Z_]`, the first character of `t_ID`. -/
def isIdentStart (c : Char) : Bool :=
  (('a' ≤ c && c ≤ 'z') || ('A' ≤ c && c ≤ 'Z') || c = '_')

/-- `[a-zA-Z_0-9]`, the continuation characters of `t_ID`. -/
def isIdentChar (c : Char) : Bool :=
  isIdentStart c || c.isDigit

/-- The reserved-word table (compiler.py lines 37-47): `t_ID` reclassifies
a matched word through it. -/
def reservedKind (w : String) : TokKind :=
  if w = "int" then .INT
  else if w = "float" then .FLOAT
  else if w = "char" then .CHAR
  else if w = "void" then .VOID
  else if w = "if" then .IF
  else if w = "else" then .ELSE
  else if w = "while" then .WHILE
  else if w = "for" then .FOR
  else if w = "return" then .RETURN
  else .ID

/-- Decimal digit text to its Python `int` value. -/
def digitsToNat (ds : List Char) : Nat :=
  ds.foldl (fun a c => 10 * a + (c.toNat - 48)) 0

/-- The body of `t_STRING`'s regex `"([^"\\]|\\.)*"` after the opening
quote: returns the content (escapes kept verbatim, as the Python keeps
`t.value[1:-1]`) and the number of characters consumed including the
closing quote, or `none` when the regex cannot match (unterminated
string; `.` does not match a newline). -/
def scanStr : List Char → Option (List Char × Nat)
  | [] => none
  | '"' :: _ => some ([], 1)
  | '\\' :: d :: r =>
    if d = '\n' then none
    else (scanStr r).map (fun p => ('\\' :: d :: p.1, p.2 + 2))
  | '\\' :: [] => none
  | ch :: r => (scanStr r).map (fun p => (ch :: p.1, p.2 + 1))

def consTok (t : Token) (p : List Token × List String) : List Token × List String :=
  (t :: p.1, p.2)

def consErr (e : String) (p : List Token × List String) : List Token × List String :=
  (p.1, e :: p.2)

/-- `t_error`'s message (compiler.py line 106). -/
def illegalChar (c : Char) (line : Nat) : String :=
  "Illegal character '" ++ c.toString ++ "' at line " ++ toString line

/-- One pass of the PLY lexer over the input: the token list and the
`self.errors` entries appended by `t_error`, in order.  The recursion is
structural on a fuel argument so that the scanner evaluates inside the
kernel; every step consumes at least one character, so the fuel
`length + 1` supplied by `tokenizeStr` is never exhausted. -/
def tokenizeAux : Nat → List Char → Nat → List Token × List String
  | 0, _, _ => ([], [])
  | _ + 1, [], _ => ([], [])
  | fuel + 1, '/' :: '/' :: r, line =>
    -- t_COMMENT r'//.*' : discarded, does not consume the newline
    tokenizeAux fuel (r.dropWhile (fun c => !(c = '\n'))) line
  | fuel + 1, '/' :: cs, line => consTok ⟨.DIVIDE, .str "/", line⟩ (tokenizeAux fuel cs line)
  | fuel + 1, '\n' :: cs, line =>
    -- t_newline r'\n+' : lineno += len(match)
    tokenizeAux fuel (cs.dropWhile (fun c => c = '\n'))
      (line + 1 + (cs.takeWhile (fun c => c = '\n')).length)
  | fuel + 1, '"' :: cs, line =>
    match scanStr cs with
    | some p =>
      consTok ⟨.STRING, .str p.1.asString, line⟩ (tokenizeAux fuel (cs.drop p.2) line)
    | none => consErr (illegalChar '"' line) (tokenizeAux fuel cs line)
  | fuel + 1, ' ' :: cs, line => tokenizeAux fuel cs line
  | fuel + 1, '\t' :: cs, line => tokenizeAux fuel cs line
  | fuel + 1, '+' :: '+' :: r, line => consTok ⟨.PLUSPLUS, .str "++", line⟩ (tokenizeAux fuel r line)
  | fuel + 1, '+' :: cs, line => consTok ⟨.PLUS, .str "+", line⟩ (tokenizeAux fuel cs line)
  | fuel + 1, '-' :: '-' :: r, line => consTok ⟨.MINUSMINUS, .str "--", line⟩ (tokenizeAux fuel r line)
  | fuel + 1, '-' :: cs, line => consTok ⟨.MINUS, .str "-", line⟩ (tokenizeAux fuel cs line)
  | fuel + 1, '=' :: '=' :: r, line => consTok ⟨.EQ, .str "==", line⟩ (tokenizeAux fuel r line)
  | fuel + 1, '=' :: cs, line => consTok ⟨.ASSIGN, .str "=", line⟩ (tokenizeAux fuel cs line)
  | fuel + 1, '!' :: '=' :: r, line => consTok ⟨.NE, .str "!=", line⟩ (tokenizeAux fuel r line)
  | fuel + 1, '!' :: cs, line => consTok ⟨.NOT, .str "!", line⟩ (tokenizeAux fuel cs line)
  | fuel + 1, '<' :: '=' :: r, line => consTok ⟨.LE, .str "<=", line⟩ (tokenizeAux fuel r line)
  | fuel + 1, '<' :: cs, line => consTok ⟨.LT, .str "<", line⟩ (tokenizeAux fuel cs line)
  | fuel + 1, '>' :: '=' :: r, line => consTok ⟨.GE, .str ">=", line⟩ (tokenizeAux fuel r line)
  | fuel + 1, '>' :: cs, line => consTok ⟨.GT, .str ">", line⟩ (tokenizeAux fuel cs line)
  | fuel + 1, '&' :: '&' :: r, line => consTok ⟨.AND, .str "&&", line⟩ (tokenizeAux fuel r line)
  | fuel + 1, '&' :: cs, line => consErr (illegalChar '&' line) (tokenizeAux fuel cs line)
  | fuel + 1, '|' :: '|' :: r, line => consTok ⟨.OR, .str "||", line⟩ (tokenizeAux fuel r line)
  | fuel + 1, '|' :: cs, line => consErr (illegalChar '|' line) (tokenizeAux fuel cs line)
  | fuel + 1, '*' :: cs, line => consTok ⟨.TIMES, .str "*", line⟩ (tokenizeAux fuel cs line)
  | fuel + 1, '%' :: cs, line => consTok ⟨.MODULO, .str "%", line⟩ (tokenizeAux fuel cs line)
  | fuel + 1, '(' :: cs, line => consTok ⟨.LPAREN, .str "(", line⟩ (tokenizeAux fuel cs line)
  | fuel + 1, ')' :: cs, line => consTok ⟨.RPAREN, .str ")", line⟩ (tokenizeAux fuel cs line)
  | fuel + 1, '\x7b' :: cs, line => consTok ⟨.LBRACE, .str "\x7b", line⟩ (tokenizeAux fuel cs line)
  | fuel + 1, '\x7d' :: cs, line => consTok ⟨.RBRACE, .str "\x7d", line⟩ (tokenizeAux fuel cs line)
  | fuel + 1, '[' :: cs, line => consTok ⟨.LBRACKET, .str "[", line⟩ (tokenizeAux fuel cs line)
  | fuel + 1, ']' :: cs, line => consTok ⟨.RBRACKET, .str "]", line⟩ (tokenizeAux fuel cs line)
  | fuel + 1, ';' :: cs, line => consTok ⟨.SEMI, .str ";", line⟩ (tokenizeAux fuel cs line)
  | fuel + 1, ',' :: cs, line => consTok ⟨.COMMA, .str ",", line⟩ (tokenizeAux fuel cs line)
  | fuel + 1, c :: cs, line =>
    if isIdentStart c then
      -- t_ID r'[a-zA-Z_][a-zA-Z_0-9]*', longest match, reserved lookup
      let w := (c :: cs.takeWhile isIdentChar).asString
      consTok ⟨reservedKind w, .str w, line⟩
        (tokenizeAux fuel (cs.dropWhile isIdentChar) line)
    else if c.isDigit then
      -- t_NUMBER r'\d+(\.\d+)?' : int unless a dot with digits follows
      let ds := c :: cs.takeWhile Char.isDigit
      match cs.dropWhile Char.isDigit with
      | '.' :: r2 =>
        if (r2.headD ' ').isDigit then
          let fs := r2.takeWhile Char.isDigit
          consTok ⟨.NUMBER, .num (.floatV ds.asString fs.asString), line⟩
            (tokenizeAux fuel (r2.dropWhile Char.isDigit) line)
        else
          consTok ⟨.NUMBER, .num (.intV (digitsToNat ds)), line⟩
            (tokenizeAux fuel (cs.dropWhile Char.isDigit) line)
      | _ =>
        consTok ⟨.NUMBER, .num (.intV (digitsToNat ds)), line⟩
          (tokenizeAux fuel (cs.dropWhile Char.isDigit) line)
    else
      consErr (illegalChar c line) (tokenizeAux fuel cs line)

/-- `tokenize` of a source string: lexing starts at line 1. -/
def tokenizeStr (s : String) : List Token × List String :=
  tokenizeAux (s.data.length + 1) s.data 1

/-! ### AST and symbol table (compiler.py lines 123-338)

The parser builds tagged tuples; each tuple shape becomes one
constructor.  A `NUMBER` reaching `p_factor` stays a raw Python
`int`/`float` (`Ast.num`). -/

/-- Parameter nodes `('param', ty, id)` and `('array_param', ty, id)`. -/
inductive PParam where
  | param (ty name : String)
  | arrayParam (ty name : String)
deriving DecidableEq

/-- A symbol-table value: `{'type':…,'kind':'variable'}`,
`{'type':…,'kind':'array','size':…}` or
`{'type':…,'kind':'function','params':…}`. -/
inductive Entry where
  | varE (ty : String)
  | arrE (ty : String) (size : NumV)
  | funE (ty : String) (params : List PParam)
deriving DecidableEq

/-- `self.symbol_table`: a single flat Python dict. -/
abbrev SymTab := List (String × Entry)

/-- Python dict assignment `d[n] = e`: replaces in place, else appends. -/
def symInsert : SymTab → String → Entry → SymTab
  | [], n, e => [(n, e)]
  | (k, v) :: t, n, e =>
    if k = n then (k, e) :: t else (k, v) :: symInsert t n e

/-- Python dict lookup `d[n]` (as an option). -/
def symLookup : SymTab → String → Option Entry
  | [], _ => none
  | (k, v) :: t, n => if k = n then some v else symLookup t n

inductive Ast where
  | program (decls : List Ast)
  | varDecl (ty name : String)
  | arrayDecl (ty name : String) (size : NumV)
  | funDecl (ty name : String) (params : List PParam) (body : Ast)
  | compound (decls stmts : List Ast)
  | exprStmt (e : Ast)
  | emptyStmt
  | ifS (cond thenB : Ast)
  | ifElse (cond thenB elseB : Ast)
  | whileS (cond body : Ast)
  | returnVoid
  | returnE (e : Ast)
  | assign (target value : Ast)
  | binop (op : String) (l r : Ast)
  | var (name : String)
  | arrayRef (name : String) (idx : Ast)
  | call (name : String) (args : List Ast)
  | num (v : NumV)

/-- The symbol-table entry a declaration node inserts
(`p_var_declaration` lines 145 and 148, `p_fun_declaration` line 160). -/
def declEntryOf : Ast → Option (String × Entry)
  | .varDecl ty n => some (n, .varE ty)
  | .arrayDecl ty n sz => some (n, .arrE ty sz)
  | .funDecl ty n ps _ => some (n, .funE ty ps)
  | _ => none

/-- The parser's side effect when a declaration rule reduces:
`self.symbol_table[name] = {...}`, an unconditional overwrite. -/
def recordDecl (a : Ast) (st : SymTab) : SymTab :=
  match declEntryOf a with
  | some (n, e) => symInsert st n e
  | none => st

/-! ### Parser

`compiler.py` builds an LALR parser with `yacc.yacc`.  The grammar is
LL-friendly (declarations and statements are distinguished by their first
token, the expression grammar is stratified), so it is embedded as a
recursive-descent parser that accepts the same language, performs the
same reduction-time symbol-table writes, and reports the same first
error: PLY's `p_error` message for the offending token, or
"Syntax error at EOF" when the input ends too early (with no error
productions, PLY reports only the first syntax error and the parse
returns `None`).  Recursion is fuelled; `fuelFor` below always supplies
more fuel than the descent can consume, so `fuelErr` is unreachable. -/

structure PSt where
  toks : List Token
  symtab : SymTab
deriving DecidableEq

/-- Fuel-exhaustion marker (never produced for the fuel `runParse` supplies). -/
def fuelErr : String := "internal: parser fuel exhausted"

/-- `p_error` (compiler.py lines 331-335). -/
def errTok : Option Token → String
  | some t =>
    "Syntax error at token " ++ kindName t.kind ++ " ('" ++ tokText t.val ++
      "') at line " ++ toString t.line
  | none => "Syntax error at EOF"

def peekKind (st : PSt) : Option TokKind := st.toks.head?.map (·.kind)

def expectTok (k : TokKind) (st : PSt) : Except String (Token × PSt) :=
  match st.toks with
  | [] => .error (errTok none)
  | t :: rest =>
    if t.kind = k then .ok (t, { st with toks := rest })
    else .error (errTok (some t))

/-- `p_type_specifier`: INT | FLOAT | CHAR | VOID, value is the word. -/
def parseTypeSpec (st : PSt) : Except String (String × PSt) :=
  match st.toks with
  | [] => .error (errTok none)
  | t :: rest =>
    match t.kind with
    | .INT | .FLOAT | .CHAR | .VOID => .ok (tokText t.val, { st with toks := rest })
    | _ => .error (errTok (some t))

/-- The tail of `p_var_declaration` after `type ID`:
`';'` or `'[' NUMBER ']' ';'`; on reduction the symbol table is written. -/
def parseVarTail (ty name : String) (st : PSt) : Except String (Ast × PSt) :=
  match peekKind st with
  | some .LBRACKET => do
    let (_, st) ← expectTok .LBRACKET st
    let (ntok, st) ← expectTok .NUMBER st
    match ntok.val with
    | .num v => do
      let (_, st) ← expectTok .RBRACKET st
      let (_, st) ← expectTok .SEMI st
      let node := Ast.arrayDecl ty name v
      .ok (node, { st with symtab := recordDecl node st.symtab })
    | .str _ => .error (errTok (some ntok))  -- a NUMBER token always carries a number
  | _ => do
    let (_, st) ← expectTok .SEMI st
    let node := Ast.varDecl ty name
    .ok (node, { st with symtab := recordDecl node st.symtab })

/-- `p_param`: `type ID` or `type ID [ ]` (no symbol-table write). -/
def parseParam (st : PSt) : Except String (PParam × PSt) := do
  let (ty, st) ← parseTypeSpec st
  let (ntok, st) ← expectTok .ID st
  match peekKind st with
  | some .LBRACKET => do
    let (_, st) ← expectTok .LBRACKET st
    let (_, st) ← expectTok .RBRACKET st
    .ok (.arrayParam ty (tokText ntok.val), st)
  | _ => .ok (.param ty (tokText ntok.val), st)

/-- `p_param_list`: left-recursive comma-separated accumulation. -/
def parseParamsLoop : Nat → List PParam → PSt → Except String (List PParam × PSt)
  | 0, _, _ => .error fuelErr
  | fuel + 1, acc, st =>
    match peekKind st with
    | some .COMMA => do
      let (_, st) ← expectTok .COMMA st
      let (p, st) ← parseParam st
      parseParamsLoop fuel (acc ++ [p]) st
    | _ => .ok (acc, st)

/-- `p_params`: a param list, a lone `void` (yielding `[]`), or empty. -/
def parseParams (fuel : Nat) (st : PSt) : Except String (List PParam × PSt) :=
  match st.toks with
  | [] => .error (errTok none)
  | t :: rest =>
    match t.kind with
    | .RPAREN => .ok ([], st)
    | .VOID =>
      match rest.head?.map Token.kind with
      | some TokKind.RPAREN => .ok ([], { st with toks := rest })
      | _ => do
        let (p, st) ← parseParam st
        parseParamsLoop fuel [p] st
    | _ => do
      let (p, st) ← parseParam st
      parseParamsLoop fuel [p] st

/-- `p_local_declarations`: `var_declaration*` (each writes the table). -/
def parseLocalsLoop : Nat → List Ast → PSt → Except String (List Ast × PSt)
  | 0, _, _ => .error fuelErr
  | fuel + 1, acc, st =>
    match peekKind st with
    | some .INT | some .FLOAT | some .CHAR | some .VOID => do
      let (ty, st) ← parseTypeSpec st
      let (ntok, st) ← expectTok .ID st
      let (d, st) ← parseVarTail ty (tokText ntok.val) st
      parseLocalsLoop fuel (acc ++ [d]) st
    | _ => .ok (acc, st)

/-- First tokens of a `statement` (used to end `statement_list`). -/
def stmtStart : TokKind → Bool
  | .SEMI | .LPAREN | .ID | .NUMBER | .LBRACE | .IF | .WHILE | .RETURN => true
  | _ => false

def relopKind : TokKind → Bool
  | .LE | .LT | .GT | .GE | .EQ | .NE => true
  | _ => false

mutual

/-- `p_program`: `declaration_list` (one or more declarations). -/
def parseProgram : Nat → PSt → Except String (Ast × PSt)
  | 0, _ => .error fuelErr
  | fuel + 1, st => do
    let (d, st) ← parseDecl fuel st
    let (ds, st) ← parseProgramLoop fuel [d] st
    .ok (.program ds, st)

def parseProgramLoop : Nat → List Ast → PSt → Except String (List Ast × PSt)
  | 0, _, _ => .error fuelErr
  | fuel + 1, acc, st =>
    match st.toks with
    | [] => .ok (acc, st)
    | _ => do
      let (d, st) ← parseDecl fuel st
      parseProgramLoop fuel (acc ++ [d]) st

/-- `p_declaration`: a variable or a function declaration (both start
with `type ID`; the third token decides). -/
def parseDecl : Nat → PSt → Except String (Ast × PSt)
  | 0, _ => .error fuelErr
  | fuel + 1, st => do
    let (ty, st) ← parseTypeSpec st
    let (ntok, st) ← expectTok .ID st
    match peekKind st with
    | some .LPAREN => do
      let (_, st) ← expectTok .LPAREN st
      let (ps, st) ← parseParams fuel st
      let (_, st) ← expectTok .RPAREN st
      let (body, st) ← parseCompound fuel st
      let node := Ast.funDecl ty (tokText ntok.val) ps body
      .ok (node, { st with symtab := recordDecl node st.symtab })
    | _ => parseVarTail ty (tokText ntok.val) st

/-- `p_compound_stmt`: `{ local_declarations statement_list }`. -/
def parseCompound : Nat → PSt → Except String (Ast × PSt)
  | 0, _ => .error fuelErr
  | fuel + 1, st => do
    let (_, st) ← expectTok .LBRACE st
    let (decls, st) ← parseLocalsLoop fuel [] st
    let (stmts, st) ← parseStmtsLoop fuel [] st
    let (_, st) ← expectTok .RBRACE st
    .ok (.compound decls stmts, st)

def parseStmtsLoop : Nat → List Ast → PSt → Except String (List Ast × PSt)
  | 0, _, _ => .error fuelErr
  | fuel + 1, acc, st =>
    match peekKind st with
    | some k =>
      if stmtStart k then do
        let (s, st) ← parseStmt fuel st
        parseStmtsLoop fuel (acc ++ [s]) st
      else .ok (acc, st)
    | none => .ok (acc, st)

/-- `p_statement` / `p_selection_stmt` (dangling `else` binds to the
nearest `if`, PLY's shift resolution) / `p_iteration_stmt` /
`p_return_stmt` / `p_expression_stmt`. -/
def parseStmt : Nat → PSt → Except String (Ast × PSt)
  | 0, _ => .error fuelErr
  | fuel + 1, st =>
    match peekKind st with
    | some .LBRACE => parseCompound fuel st
    | some .IF => do
      let (_, st) ← expectTok .IF st
      let (_, st) ← expectTok .LPAREN st
      let (c, st) ← parseExpression fuel st
      let (_, st) ← expectTok .RPAREN st
      let (s1, st) ← parseStmt fuel st
      match peekKind st with
      | some .ELSE => do
        let (_, st) ← expectTok .ELSE st
        let (s2, st) ← parseStmt fuel st
        .ok (.ifElse c s1 s2, st)
      | _ => .ok (.ifS c s1, st)
    | some .WHILE => do
      let (_, st) ← expectTok .WHILE st
      let (_, st) ← expectTok .LPAREN st
      let (c, st) ← parseExpression fuel st
      let (_, st) ← expectTok .RPAREN st
      let (s1, st) ← parseStmt fuel st
      .ok (.whileS c s1, st)
    | some .RETURN => do
      let (_, st) ← expectTok .RETURN st
      match peekKind st with
      | some .SEMI => do
        let (_, st) ← expectTok .SEMI st
        .ok (.returnVoid, st)
      | _ => do
        let (e, st) ← parseExpression fuel st
        let (_, st) ← expectTok .SEMI st
        .ok (.returnE e, st)
    | some .SEMI => do
      let (_, st) ← expectTok .SEMI st
      .ok (.emptyStmt, st)
    | _ => do
      let (e, st) ← parseExpression fuel st
      let (_, st) ← expectTok .SEMI st
      .ok (.exprStmt e, st)

/-- `p_expression`: `var ASSIGN expression | simple_expression`.  The
Boolean carried by the expression parsers records whether the parse so
far is exactly a bare `var` nonterminal (`ID` or `ID [ expression ]`),
which is the only left context in which the LALR parser can shift
`ASSIGN`; anywhere else `=` is a syntax error at that token (raised here
by the caller's `expect`). -/
def parseExpression : Nat → PSt → Except String (Ast × PSt)
  | 0, _ => .error fuelErr
  | fuel + 1, st => do
    let (eb, st) ← parseSimple fuel st
    match eb.2, peekKind st with
    | true, some .ASSIGN => do
      let (_, st) ← expectTok .ASSIGN st
      let (rhs, st) ← parseExpression fuel st
      .ok (.assign eb.1 rhs, st)
    | _, _ => .ok (eb.1, st)

/-- `p_simple_expression`: at most one relational operator. -/
def parseSimple : Nat → PSt → Except String ((Ast × Bool) × PSt)
  | 0, _ => .error fuelErr
  | fuel + 1, st => do
    let (ab, st) ← parseAdditive fuel st
    match st.toks with
    | t :: rest =>
      if relopKind t.kind then do
        let (ab2, st2) ← parseAdditive fuel { st with toks := rest }
        .ok ((.binop (tokText t.val) ab.1 ab2.1, false), st2)
      else .ok (ab, st)
    | [] => .ok (ab, st)

/-- `p_additive_expression`: left-associative `+`/`-` chain. -/
def parseAdditive : Nat → PSt → Except String ((Ast × Bool) × PSt)
  | 0, _ => .error fuelErr
  | fuel + 1, st => do
    let (tb, st) ← parseTerm fuel st
    parseAdditiveLoop fuel tb st

def parseAdditiveLoop : Nat → (Ast × Bool) → PSt → Except String ((Ast × Bool) × PSt)
  | 0, _, _ => .error fuelErr
  | fuel + 1, acc, st =>
    match st.toks with
    | t :: rest =>
      match t.kind with
      | .PLUS | .MINUS => do
        let (tb2, st2) ← parseTerm fuel { st with toks := rest }
        parseAdditiveLoop fuel (Ast.binop (tokText t.val) acc.1 tb2.1, false) st2
      | _ => .ok (acc, st)
    | [] => .ok (acc, st)

/-- `p_term`: left-associative `*`/`/`/`%` chain. -/
def parseTerm : Nat → PSt → Except String ((Ast × Bool) × PSt)
  | 0, _ => .error fuelErr
  | fuel + 1, st => do
    let (fb, st) ← parseFactor fuel st
    parseTermLoop fuel fb st

def parseTermLoop : Nat → (Ast × Bool) → PSt → Except String ((Ast × Bool) × PSt)
  | 0, _, _ => .error fuelErr
  | fuel + 1, acc, st =>
    match st.toks with
    | t :: rest =>
      match t.kind with
      | .TIMES | .DIVIDE | .MODULO => do
        let (fb2, st2) ← parseFactor fuel { st with toks := rest }
        parseTermLoop fuel (Ast.binop (tokText t.val) acc.1 fb2.1, false) st2
      | _ => .ok (acc, st)
    | [] => .ok (acc, st)

/-- `p_factor`: `( expression )`, a `var`, a `call`, or a `NUMBER`. -/
def parseFactor : Nat → PSt → Except String ((Ast × Bool) × PSt)
  | 0, _ => .error fuelErr
  | fuel + 1, st =>
    match st.toks with
    | [] => .error (errTok none)
    | t :: rest =>
      match t.kind with
      | .LPAREN => do
        let (e, st2) ← parseExpression fuel { st with toks := rest }
        let (_, st3) ← expectTok .RPAREN st2
        .ok ((e, false), st3)
      | .NUMBER =>
        match t.val with
        | .num v => .ok ((.num v, false), { st with toks := rest })
        | .str _ => .error (errTok (some t))
      | .ID =>
        match rest with
        | t2 :: rest2 =>
          match t2.kind with
          | .LPAREN => do
            let (args, st2) ← parseArgsList fuel { st with toks := rest2 }
            let (_, st3) ← expectTok .RPAREN st2
            .ok ((.call (tokText t.val) args, false), st3)
          | .LBRACKET => do
            let (ix, st2) ← parseExpression fuel { st with toks := rest2 }
            let (_, st3) ← expectTok .RBRACKET st2
            .ok ((.arrayRef (tokText t.val) ix, true), st3)
          | _ => .ok ((.var (tokText t.val), true), { st with toks := rest })
        | [] => .ok ((.var (tokText t.val), true), { st with toks := rest })
      | _ => .error (errTok (some t))

/-- `p_args` / `p_arg_list`. -/
def parseArgsList : Nat → PSt → Except String (List Ast × PSt)
  | 0, _ => .error fuelErr
  | fuel + 1, st =>
    match peekKind st with
    | some .RPAREN => .ok ([], st)
    | _ => do
      let (e, st) ← parseExpression fuel st
      parseArgsLoop fuel [e] st

def parseArgsLoop : Nat → List Ast → PSt → Except String (List Ast × PSt)
  | 0, _, _ => .error fuelErr
  | fuel + 1, acc, st =>
    match peekKind st with
    | some .COMMA => do
      let (_, st) ← expectTok .COMMA st
      let (e, st) ← parseExpression fuel st
      parseArgsLoop fuel (acc ++ [e]) st
    | _ => .ok (acc, st)

end

/-- Fuel always sufficient for the descent (each unit of nesting in the
grammar consumes a token within a bounded number of calls). -/
def fuelFor (toks : List Token) : Nat := 20 * toks.length + 20

structure ParseOut where
  ast : Option Ast
  symtab : SymTab
  errs : List String

/-- `self.parser.parse(...)`: a complete parse or the first error. -/
def runParse (toks : List Token) : ParseOut :=
  match parseProgram (fuelFor toks) ⟨toks, []⟩ with
  | .ok (a, st) => ⟨some a, st.symtab, []⟩
  | .error e => ⟨none, [], [e]⟩

/-! ### Three-address code generation (compiler.py lines 340-446)

`generate_tac` appends f-string instructions to `self.tac` and allocates
`t{temp_count}` / `L{label_count}` names.  Each appended string shape
becomes one `Instr` constructor; `Instr.render` is exactly the f-string.
`generate_tac` returns a reference string for expression nodes and
(implicitly) `None` for statements; a `None` reference interpolated into
an f-string prints as "None" (`refStr`). -/

inductive Instr where
  | declare (name ty : String)
  | declareArr (name : String) (size : NumV) (ty : String)
  | funcHead (name : String)
  | assign (lhs rhs : String)
  | binop (dest l op r : String)
  | ifnotGoto (cond lbl : String)
  | goto (lbl : String)
  | label (lbl : String)
  | paramPush (arg : String)
  | callAssign (dest fname : String) (argc : Nat)
  | ret (v : String)
  | retVoid
deriving DecidableEq

def Instr.render : Instr → String
  | .declare n ty => "declare " ++ n ++ " as " ++ ty
  | .declareArr n sz ty => "declare " ++ n ++ "[" ++ numStr sz ++ "] as " ++ ty
  | .funcHead n => "function " ++ n ++ ":"
  | .assign l r => l ++ " = " ++ r
  | .binop d l op r => d ++ " = " ++ l ++ " " ++ op ++ " " ++ r
  | .ifnotGoto c l => "ifnot " ++ c ++ " goto " ++ l
  | .goto l => "goto " ++ l
  | .label l => l ++ ":"
  | .paramPush a => "param " ++ a
  | .callAssign d f n => d ++ " = call " ++ f ++ " " ++ toString n
  | .ret v => "return " ++ v
  | .retVoid => "return"

/-- A fresh temporary `f"t{temp_count}"`. -/
def tName (i : Nat) : String := "t" ++ toString i

/-- A fresh label `f"L{label_count}"`. -/
def lName (i : Nat) : String := "L" ++ toString i

/-- A reference interpolated into an f-string (`None` prints "None"). -/
def refStr (r : Option String) : String := r.getD "None"

/-- The generator state: `self.temp_count`, `self.label_count`, `self.tac`. -/
structure GSt where
  tempCount : Nat
  labelCount : Nat
  tac : List Instr
deriving DecidableEq

mutual

/-- `generate_tac(node)`: the updated state and the returned reference. -/
def genTac : Ast → GSt → GSt × Option String
  | .program ds, s => (genTacList ds s, none)
  | .varDecl ty n, s => ({ s with tac := s.tac ++ [.declare n ty] }, none)
  | .arrayDecl ty n sz, s => ({ s with tac := s.tac ++ [.declareArr n sz ty] }, none)
  | .funDecl _ n _ body, s =>
    let s1 : GSt := { s with tac := s.tac ++ [.funcHead n] }
    ((genTac body s1).1, none)
  | .compound ds sts, s => (genTacList sts (genTacList ds s), none)
  | .assign tgt val, s =>
    -- rhs is lowered first, then the target (an array target lowers its index here)
    let r1 := genTac val s
    let r2 := genTac tgt r1.1
    ({ r2.1 with tac := r2.1.tac ++ [.assign (refStr r2.2) (refStr r1.2)] }, none)
  | .binop op l r, s =>
    let r1 := genTac l s
    let r2 := genTac r r1.1
    let t := tName r2.1.tempCount
    (⟨r2.1.tempCount + 1, r2.1.labelCount,
      r2.1.tac ++ [.binop t (refStr r1.2) op (refStr r2.2)]⟩, some t)
  | .var n, s => (s, some n)
  | .arrayRef n ix, s =>
    let r1 := genTac ix s
    (r1.1, some (n ++ "[" ++ refStr r1.2 ++ "]"))
  | .ifS cond body, s =>
    let r1 := genTac cond s
    let lf := lName r1.1.labelCount
    let s2 : GSt := ⟨r1.1.tempCount, r1.1.labelCount + 1,
      r1.1.tac ++ [.ifnotGoto (refStr r1.2) lf]⟩
    let r3 := genTac body s2
    ({ r3.1 with tac := r3.1.tac ++ [.label lf] }, none)
  | .ifElse cond tB eB, s =>
    let r1 := genTac cond s
    let lf := lName r1.1.labelCount
    let le := lName (r1.1.labelCount + 1)
    let s2 : GSt := ⟨r1.1.tempCount, r1.1.labelCount + 2,
      r1.1.tac ++ [.ifnotGoto (refStr r1.2) lf]⟩
    let r3 := genTac tB s2
    let s4 : GSt := { r3.1 with tac := r3.1.tac ++ [.goto le, .label lf] }
    let r5 := genTac eB s4
    ({ r5.1 with tac := r5.1.tac ++ [.label le] }, none)
  | .whileS cond body, s =>
    -- both labels are allocated before the condition is lowered (lines 417-419)
    let ls := lName s.labelCount
    let le := lName (s.labelCount + 1)
    let s1 : GSt := ⟨s.tempCount, s.labelCount + 2, s.tac ++ [.label ls]⟩
    let r2 := genTac cond s1
    let s3 : GSt := { r2.1 with tac := r2.1.tac ++ [.ifnotGoto (refStr r2.2) le] }
    let r4 := genTac body s3
    ({ r4.1 with tac := r4.1.tac ++ [.goto ls, .label le] }, none)
  | .call f args, s =>
    -- all arguments are lowered first, then one `param` per reference
    let r1 := genArgs args s
    let s2 : GSt := { r1.1 with tac := r1.1.tac ++ r1.2.map Instr.paramPush }
    let t := tName s2.tempCount
    (⟨s2.tempCount + 1, s2.labelCount,
      s2.tac ++ [.callAssign t f r1.2.length]⟩, some t)
  | .returnE e, s =>
    let r1 := genTac e s
    ({ r1.1 with tac := r1.1.tac ++ [.ret (refStr r1.2)] }, none)
  | .returnVoid, s => ({ s with tac := s.tac ++ [.retVoid] }, none)
  | .exprStmt e, s => ((genTac e s).1, none)
  | .num v, s => (s, some (numStr v))
  | .emptyStmt, s => (s, none)  -- no branch matches 'empty_stmt': no effect

/-- The `for decl in ...: self.generate_tac(decl)` loops. -/
def genTacList : List Ast → GSt → GSt
  | [], s => s
  | a :: rest, s => genTacList rest (genTac a s).1

/-- `args = [self.generate_tac(arg) for arg in node[2]]`. -/
def genArgs : List Ast → GSt → GSt × List String
  | [], s => (s, [])
  | a :: rest, s =>
    let r1 := genTac a s
    let r2 := genArgs rest r1.1
    (r2.1, refStr r1.2 :: r2.2)

end

/-- The zero generator state a compilation starts from. -/
def gSt0 : GSt := ⟨0, 0, []⟩

/-! ### The compile entry point (compiler.py lines 467-525)

`compile` resets all state, lexes the whole input once for the token
dump, then parses (which lexes the input a second time from a reset
lexer, so `t_error` records each illegal character twice), and lowers
only when a non-`None` AST was produced; on a failed parse `result`
keeps its empty `tac`/`symbol_table`.  Syntax highlighting
(`highlighted_code`, produced by the external pygments collaborator) is
presentation glue outside the embedded core.  When both lexical errors
and a syntax error occur, the Python interleaves the second pass's
lexical errors around the syntax error by input position; the embedding
lists the second lexing pass's errors before the parse diagnostic (no
claim below depends on the interleaving order). -/

structure CompileResult where
  tokens : List Token
  ast : Option Ast
  tac : List String
  symtab : SymTab
  errors : List String

def compile (src : String) : CompileResult :=
  let lexed := tokenizeStr src
  let parsed := runParse lexed.1
  match parsed.ast with
  | some a =>
    { tokens := lexed.1, ast := some a,
      tac := ((genTac a gSt0).1.tac).map Instr.render,
      symtab := parsed.symtab,
      errors := lexed.2 ++ lexed.2 ++ parsed.errs }
  | none =>
    { tokens := lexed.1, ast := none, tac := [], symtab := [],
      errors := lexed.2 ++ lexed.2 ++ parsed.errs }

/-! ### The mini.py variant

`mini.py` has one global `temp_count`; `new_temp` serves both
temporaries and labels, and label definitions are emitted as
`f"label {l}"`.  Its `generate_code` is purely functional over lists of
strings except for the counter, embedded here by threading the counter.
Block nodes (`Node('block', stmts)`) are represented by their statement
lists.  Statement nodes in expression position (and vice versa) cannot
be produced by mini.py's grammar; those match arms return neutral
values. -/

inductive MNode where
  | decl (name : String)
  | assign (value : MNode) (name : String)
  | binop (l r : MNode) (op : String)
  | num (n : Nat)
  | var (name : String)
  | ifS (cond : MNode) (thenB : List MNode)
  | ifElse (cond : MNode) (thenB elseB : List MNode)
  | whileS (cond : MNode) (body : List MNode)

mutual

/-- `generate_code` on an expression node: `(code, result)` plus the
threaded `temp_count`. -/
def miniGenExpr : MNode → Nat → List String × String × Nat
  | .num n, c => ([], toString n, c)
  | .var nm, c => ([], nm, c)
  | .binop l r op, c =>
    let p1 := miniGenExpr l c
    let p2 := miniGenExpr r p1.2.2
    let t := "t" ++ toString p2.2.2
    (p1.1 ++ p2.1 ++ [t ++ " = " ++ p1.2.1 ++ " " ++ op ++ " " ++ p2.2.1],
      t, p2.2.2 + 1)
  | _, c => ([], "", c)

/-- `generate_code` on a statement node: the emitted code. -/
def miniGenStmt : MNode → Nat → List String × Nat
  | .assign v nm, c =>
    let p := miniGenExpr v c
    (p.1 ++ [nm ++ " = " ++ p.2.1], p.2.2)
  | .ifS cond thenB, c =>
    let pc := miniGenExpr cond c
    let pt := miniGenBlock thenB pc.2.2
    let le := "t" ++ toString pt.2
    (pc.1 ++ ["ifnot " ++ pc.2.1 ++ " goto " ++ le] ++ pt.1 ++ ["label " ++ le],
      pt.2 + 1)
  | .ifElse cond thenB elseB, c =>
    let pc := miniGenExpr cond c
    let pt := miniGenBlock thenB pc.2.2
    let pe := miniGenBlock elseB pt.2
    let lelse := "t" ++ toString pe.2
    let lend := "t" ++ toString (pe.2 + 1)
    (pc.1 ++ ["ifnot " ++ pc.2.1 ++ " goto " ++ lelse] ++ pt.1 ++
      ["goto " ++ lend, "label " ++ lelse] ++ pe.1 ++ ["label " ++ lend],
      pe.2 + 2)
  | .whileS cond body, c =>
    let ls := "t" ++ toString c
    let le := "t" ++ toString (c + 1)
    let pc := miniGenExpr cond (c + 2)
    let pb := miniGenBlock body pc.2.2
    (["label " ++ ls] ++ pc.1 ++ ["ifnot " ++ pc.2.1 ++ " goto " ++ le] ++
      pb.1 ++ ["goto " ++ ls, "label " ++ le], pb.2)
  | .decl _, c => ([], c)
  | _, c => ([], c)

def miniGenBlock : List MNode → Nat → List String × Nat
  | [], c => ([], c)
  | sNode :: rest, c =>
    let p1 := miniGenStmt sNode c
    let p2 := miniGenBlock rest p1.2
    (p1.1 ++ p2.1, p2.2)

end

/-- `generate_code` on `Node('program', [decls, statements])`. -/
def miniGenProgram (decls stmts : List MNode) (c : Nat) : List String × Nat :=
  let p1 := miniGenBlock decls c
  let p2 := miniGenBlock stmts p1.2
  (p1.1 ++ p2.1, p2.2)

/-! ### Observation functions over emitted TAC

Used to state the fresh-name and label invariants: the destinations of
temporary-allocating instructions, and the label definitions /
jump targets of an instruction list. -/

/-- The freshly allocated temporary an instruction writes, if any
(`binop` and `call` are the two allocation sites in `generate_tac`). -/
def instrTempDest : Instr → Option String
  | .binop d _ _ _ => some d
  | .callAssign d _ _ => some d
  | _ => none

/-- The label an instruction defines, if any (`f"{label}:"`). -/
def instrLabelDef : Instr → Option String
  | .label l => some l
  | _ => none

/-- The label an instruction jumps to, if any (`goto` / `ifnot … goto`). -/
def instrLabelUse : Instr → Option String
  | .goto l => some l
  | .ifnotGoto _ l => some l
  | _ => none

def tempDests (Δ : List Instr) : List String := Δ.filterMap instrTempDest

def labelDefs (Δ : List Instr) : List String := Δ.filterMap instrLabelDef

def labelUses (Δ : List Instr) : List String := Δ.filterMap instrLabelUse

/-- The generator invariant relating a starting state `s`, the state
`s'` after lowering one node, and the instructions `Δ` emitted in
between: the TAC list only grows, both counters only grow, the
temporaries allocated are exactly `t<i>` for the consecutive counter
values consumed (in emission order), and the labels defined and the
labels jumped to are each exactly the `L<i>` for the consecutive label
counter values consumed (as multisets: once each). -/
def Step (s s' : GSt) (Δ : List Instr) : Prop :=
  s'.tac = s.tac ++ Δ ∧
  s.tempCount ≤ s'.tempCount ∧
  s.labelCount ≤ s'.labelCount ∧
  tempDests Δ =
    (List.range' s.tempCount (s'.tempCount - s.tempCount)).map tName ∧
  (labelDefs Δ : Multiset String) =
    (((List.range' s.labelCount (s'.labelCount - s.labelCount)).map lName : List String) : Multiset String) ∧
  (labelUses Δ : Multiset String) =
    (((List.range' s.labelCount (s'.labelCount - s.labelCount)).map lName : List String) : Multiset String)

/-- `GenOk a`: lowering `a` from any state satisfies the invariant. -/
def GenOk (a : Ast) : Prop := ∀ s : GSt, ∃ Δ, Step s (genTac a s).1 Δ

def GenListOk (l : List Ast) : Prop := ∀ s : GSt, ∃ Δ, Step s (genTacList l s) Δ

def GenArgsOk (l : List Ast) : Prop := ∀ s : GSt, ∃ Δ, Step s (genArgs l s).1 Δ

/-! ### Decimal rendering helpers

`tName`/`lName` use `toString : Nat → String`, which is `Nat.repr`; its
injectivity (needed for "no name is allocated twice") is proved below
via the explicit digit list `decChars` and its evaluator `decVal`. -/

/-- The digit characters of `n` in base 10, most significant first
(the list `Nat.toDigitsCore 10` builds). -/
def decChars (n : Nat) : List Char :=
  if h : n / 10 = 0 then [Nat.digitChar (n % 10)]
  else decChars (n / 10) ++ [Nat.digitChar (n % 10)]
decreasing_by exact Nat.div_lt_self (by omega) (by omega)

/-- Evaluate a decimal digit string back to the number. -/
def decVal (l : List Char) : Nat :=
  l.foldl (fun a c => 10 * a + (c.toNat - 48)) 0

/-! ### Symbol-table folding (for the redeclaration claim) -/

/-- The symbol-table effect of a list of declaration nodes, applied in
order: exactly the writes the parser performs as it reduces each
declaration. -/
def processDecls (ds : List Ast) (st : SymTab) : SymTab :=
  ds.foldl (fun acc d => recordDecl d acc) st

/-- The entry of the LAST declaration of `name` in `ds` (specification
side of the redeclaration claim: later declarations win). -/
def lastDeclEntry (name : String) : List Ast → Option Entry
  | [] => none
  | d :: ds =>
    (lastDeclEntry name ds).or
      (match declEntryOf d with
       | some (n, e) => if n = name then some e else none
       | none => none)

/-! ### Whitespace/comment-only inputs (for claim C2) -/

/-- Scanner for whitespace/comment-only input.  Mode `false`: between
tokens; mode `true`: inside a `//` line comment. -/
def wsScan : Bool → List Char → Bool
  | _, [] => true
  | true, c :: cs => if c = '\n' then wsScan false cs else wsScan true cs
  | false, '/' :: '/' :: r => wsScan true r
  | false, c :: cs =>
    if c = ' ' ∨ c = '\t' ∨ c = '\n' then wsScan false cs else false

/-- The input consists only of spaces, tabs, newlines and `//` line
comments. -/
def wsCommentOnly (cs : List Char) : Bool := wsScan false cs

/-- Inside a `//` comment: anything until the end of the line. -/
def wsInComment (cs : List Char) : Bool := wsScan true cs

/-! ### Concrete fixtures for the claims -/

/-- The end-to-end example input of the spec (and of mini.py's `__main__`
demo, there spread over several lines). -/
def c1input : String :=
  "int x; x = 5 + 3; if (x) \x7b x = x - 1; \x7d else \x7b x = x + 1; \x7d"

/-- The AST of the example program: its declaration, and the statements
as the statement grammar builds them (`compound` bodies for the braced
blocks).  The top-level grammar of `compiler.py` does not accept the
statements, so this tree is what the statement/expression productions
yield, lowered directly. -/
def c1ast : Ast := .program [
  .varDecl "int" "x",
  .exprStmt (.assign (.var "x") (.binop "+" (.num (.intV 5)) (.num (.intV 3)))),
  .ifElse (.var "x")
    (.compound [] [.exprStmt (.assign (.var "x") (.binop "-" (.var "x") (.num (.intV 1))))])
    (.compound [] [.exprStmt (.assign (.var "x") (.binop "+" (.var "x") (.num (.intV 1))))])]

/-- The TAC sequence the claim expects. -/
def c1expected : List String :=
  ["declare x as int", "t0 = 5 + 3", "x = t0", "ifnot x goto L0",
   "t1 = x - 1", "x = t1", "goto L1", "L0:", "t2 = x + 1", "x = t2", "L1:"]

/-- The declarations of mini.py's demo program (`int x;`). -/
def miniDemoDecls : List MNode := [.decl "x"]

/-- The statements of mini.py's demo program. -/
def miniDemoStmts : List MNode := [
  .assign (.binop (.num 5) (.num 3) "+") "x",
  .ifElse (.var "x")
    [.assign (.binop (.var "x") (.num 1) "-") "x"]
    [.assign (.binop (.var "x") (.num 1) "+") "x"]]

/-! ## Theorems

### Injectivity of the generated names -/

theorem toDigitsCore_eq_decChars (fuel : Nat) :
    ∀ (n : Nat) (ds : List Char), n < fuel →
      Nat.toDigitsCore 10 fuel n ds = decChars n ++ ds := by
  induction fuel with
  | zero => intro n ds h; omega
  | succ fuel ih =>
    intro n ds _
    rw [Nat.toDigitsCore, decChars]
    by_cases h10 : n / 10 = 0
    · simp [h10]
    · have hlt : n / 10 < fuel := by
        have h2 : n / 10 < n := Nat.div_lt_self (by omega) (by omega)
        omega
      rw [dif_neg h10, if_neg h10, ih (n / 10) _ hlt]
      simp

theorem decVal_append_digit (l : List Char) (c : Char) :
    decVal (l ++ [c]) = 10 * decVal l + (c.toNat - 48) := by
  simp [decVal, List.foldl_append]

theorem digitChar_val : ∀ m, m < 10 → (Nat.digitChar m).toNat - 48 = m := by decide

theorem decVal_decChars (n : Nat) : decVal (decChars n) = n := by
  induction n using Nat.strong_induction_on with
  | _ n ih =>
    rw [decChars]
    by_cases h10 : n / 10 = 0
    · rw [dif_pos h10]
      have hn : n % 10 = n := Nat.mod_eq_of_lt (by omega)
      have hd := digitChar_val (n % 10) (Nat.mod_lt _ (by omega))
      simp only [decVal, List.foldl_cons, List.foldl_nil]
      omega
    · rw [dif_neg h10, decVal_append_digit,
        ih (n / 10) (Nat.div_lt_self (by omega) (by omega))]
      have hd := digitChar_val (n % 10) (Nat.mod_lt _ (by omega))
      omega

theorem natRepr_injective : Function.Injective Nat.repr := by
  intro m n h
  rw [Nat.repr, Nat.repr, Nat.toDigits, Nat.toDigits,
    toDigitsCore_eq_decChars (m + 1) m [] (by omega),
    toDigitsCore_eq_decChars (n + 1) n [] (by omega)] at h
  simp only [List.append_nil, List.asString] at h
  have hdata : decChars m = decChars n := congrArg String.data h
  have := congrArg decVal hdata
  rwa [decVal_decChars, decVal_decChars] at this

theorem string_append_left_cancel {p a b : String} (h : p ++ a = p ++ b) : a = b := by
  have hd := congrArg String.data h
  rw [String.data_append, String.data_append] at hd
  have hd2 := List.append_cancel_left hd
  cases a
  cases b
  exact congrArg String.mk hd2

theorem tName_injective : Function.Injective tName := by
  intro m n h
  exact natRepr_injective (string_append_left_cancel (p := "t") h)

theorem lName_injective : Function.Injective lName := by
  intro m n h
  exact natRepr_injective (string_append_left_cancel (p := "L") h)

theorem lPrefix_ne_t3 (s : String) : "L" ++ s ≠ "t3" := by
  intro h
  have hd := congrArg String.data h
  rw [String.data_append] at hd
  simp at hd

/-! ### The generator invariant: `Step` algebra -/

theorem tempDests_append (Δ1 Δ2 : List Instr) :
    tempDests (Δ1 ++ Δ2) = tempDests Δ1 ++ tempDests Δ2 :=
  List.filterMap_append ..

theorem labelDefs_append (Δ1 Δ2 : List Instr) :
    labelDefs (Δ1 ++ Δ2) = labelDefs Δ1 ++ labelDefs Δ2 :=
  List.filterMap_append ..

theorem labelUses_append (Δ1 Δ2 : List Instr) :
    labelUses (Δ1 ++ Δ2) = labelUses Δ1 ++ labelUses Δ2 :=
  List.filterMap_append ..

theorem range'_split {a b c : Nat} (h1 : a ≤ b) (h2 : b ≤ c) :
    List.range' a (c - a) = List.range' a (b - a) ++ List.range' b (c - b) := by
  have hb : a + (b - a) = b := by omega
  have hn : (c - b) + (b - a) = c - a := by omega
  rw [← hn, ← List.range'_append_1, hb]

theorem range'_one_off {b c : Nat} (h : b < c) :
    List.range' b (c - b) = [b] ++ List.range' (b + 1) (c - (b + 1)) := by
  have h1 : List.range' b (c - b) = List.range' b (b + 1 - b) ++ List.range' (b + 1) (c - (b + 1)) :=
    range'_split (by omega) (by omega)
  rw [h1, show b + 1 - b = 1 by omega, List.range'_one]

theorem step_nil (s : GSt) : Step s s [] := by
  refine ⟨by simp, le_refl _, le_refl _, ?_, ?_, ?_⟩ <;>
    simp [tempDests, labelDefs, labelUses]

theorem step_trans {s1 s2 s3 : GSt} {Δ1 Δ2 : List Instr}
    (h1 : Step s1 s2 Δ1) (h2 : Step s2 s3 Δ2) : Step s1 s3 (Δ1 ++ Δ2) := by
  obtain ⟨t1, m1, l1, d1, ld1, lu1⟩ := h1
  obtain ⟨t2, m2, l2, d2, ld2, lu2⟩ := h2
  refine ⟨by rw [t2, t1, List.append_assoc], le_trans m1 m2, le_trans l1 l2, ?_, ?_, ?_⟩
  · rw [tempDests_append, d1, d2, range'_split m1 m2, List.map_append]
  · rw [labelDefs_append, ← Multiset.coe_add, ld1, ld2,
      range'_split l1 l2, List.map_append, ← Multiset.coe_add]
  · rw [labelUses_append, ← Multiset.coe_add, lu1, lu2,
      range'_split l1 l2, List.map_append, ← Multiset.coe_add]

/-- Emitting one instruction that allocates nothing and neither defines
nor targets a label. -/
theorem step_emit (s : GSt) (i : Instr)
    (ht : instrTempDest i = none) (hd : instrLabelDef i = none)
    (hu : instrLabelUse i = none) :
    Step s ⟨s.tempCount, s.labelCount, s.tac ++ [i]⟩ [i] := by
  refine ⟨rfl, le_refl _, le_refl _, ?_, ?_, ?_⟩ <;>
    simp [tempDests, labelDefs, labelUses, List.filterMap_cons, ht, hd, hu]

/-- Allocating a fresh temporary for a `binop` instruction. -/
theorem step_emitTemp (s : GSt) (lref op rref : String) :
    Step s ⟨s.tempCount + 1, s.labelCount,
        s.tac ++ [.binop (tName s.tempCount) lref op rref]⟩
      [.binop (tName s.tempCount) lref op rref] := by
  unfold Step
  dsimp only
  refine ⟨rfl, by omega, le_refl _, ?_, ?_, ?_⟩
  · rw [show s.tempCount + 1 - s.tempCount = 1 by omega, List.range'_one]
    simp [tempDests, List.filterMap_cons, instrTempDest]
  · simp [labelDefs, List.filterMap_cons, instrLabelDef]
  · simp [labelUses, List.filterMap_cons, instrLabelUse]

/-- Allocating a fresh temporary for a `call` instruction. -/
theorem step_emitCall (s : GSt) (f : String) (n : Nat) :
    Step s ⟨s.tempCount + 1, s.labelCount,
        s.tac ++ [.callAssign (tName s.tempCount) f n]⟩
      [.callAssign (tName s.tempCount) f n] := by
  unfold Step
  dsimp only
  refine ⟨rfl, by omega, le_refl _, ?_, ?_, ?_⟩
  · rw [show s.tempCount + 1 - s.tempCount = 1 by omega, List.range'_one]
    simp [tempDests, List.filterMap_cons, instrTempDest]
  · simp [labelDefs, List.filterMap_cons, instrLabelDef]
  · simp [labelUses, List.filterMap_cons, instrLabelUse]

theorem tempDests_params (refs : List String) :
    tempDests (refs.map Instr.paramPush) = [] := by
  induction refs with
  | nil => rfl
  | cons a l ih => simpa [tempDests, List.filterMap_cons, instrTempDest] using ih

theorem labelDefs_params (refs : List String) :
    labelDefs (refs.map Instr.paramPush) = [] := by
  induction refs with
  | nil => rfl
  | cons a l ih => simpa [labelDefs, List.filterMap_cons, instrLabelDef] using ih

theorem labelUses_params (refs : List String) :
    labelUses (refs.map Instr.paramPush) = [] := by
  induction refs with
  | nil => rfl
  | cons a l ih => simpa [labelUses, List.filterMap_cons, instrLabelUse] using ih

/-- Emitting the `param` instructions of a call. -/
theorem step_params (s : GSt) (refs : List String) :
    Step s ⟨s.tempCount, s.labelCount, s.tac ++ refs.map Instr.paramPush⟩
      (refs.map Instr.paramPush) := by
  refine ⟨rfl, le_refl _, le_refl _, ?_, ?_, ?_⟩ <;>
    simp [tempDests_params, labelDefs_params, labelUses_params]

theorem range'_two_off {b c : Nat} (h : b + 2 ≤ c) :
    List.range' b (c - b) = [b] ++ [b + 1] ++ List.range' (b + 2) (c - (b + 2)) := by
  rw [range'_split (show b ≤ b + 2 by omega) h, show b + 2 - b = 2 by omega]
  rfl

theorem singles_ifnot (c l : String) :
    tempDests [Instr.ifnotGoto c l] = [] ∧
    labelDefs [Instr.ifnotGoto c l] = [] ∧
    labelUses [Instr.ifnotGoto c l] = [l] := ⟨rfl, rfl, rfl⟩

theorem singles_label (l : String) :
    tempDests [Instr.label l] = [] ∧
    labelDefs [Instr.label l] = [l] ∧
    labelUses [Instr.label l] = [] := ⟨rfl, rfl, rfl⟩

theorem singles_goto_label (l m : String) :
    tempDests [Instr.goto l, Instr.label m] = [] ∧
    labelDefs [Instr.goto l, Instr.label m] = [m] ∧
    labelUses [Instr.goto l, Instr.label m] = [l] := ⟨rfl, rfl, rfl⟩

/-- The `if` lowering: condition, `ifnot … goto Lf`, body, `Lf:`. -/
theorem step_if_glue {s s1 s3 : GSt} {Δc Δb : List Instr} (cref : String)
    (h1 : Step s s1 Δc)
    (h2 : Step ⟨s1.tempCount, s1.labelCount + 1,
        s1.tac ++ [.ifnotGoto cref (lName s1.labelCount)]⟩ s3 Δb) :
    Step s ⟨s3.tempCount, s3.labelCount, s3.tac ++ [.label (lName s1.labelCount)]⟩
      (Δc ++ [.ifnotGoto cref (lName s1.labelCount)] ++ Δb ++
        [.label (lName s1.labelCount)]) := by
  obtain ⟨t1, m1, l1, d1, ld1, lu1⟩ := h1
  obtain ⟨t2, m2, l2, d2, ld2, lu2⟩ := h2
  unfold Step
  dsimp only at t2 m2 l2 d2 ld2 lu2 ⊢
  have hl3 : s1.labelCount + 1 ≤ s3.labelCount := l2
  refine ⟨?_, le_trans m1 m2, by omega, ?_, ?_, ?_⟩
  · rw [t2, t1]; simp [List.append_assoc]
  · rw [tempDests_append, tempDests_append, tempDests_append, d1, d2,
      (singles_ifnot cref (lName s1.labelCount)).1,
      (singles_label (lName s1.labelCount)).1,
      range'_split m1 m2, List.map_append]
    simp
  · rw [labelDefs_append, labelDefs_append, labelDefs_append,
      (singles_ifnot cref (lName s1.labelCount)).2.1,
      (singles_label (lName s1.labelCount)).2.1,
      range'_split l1 (le_trans (by omega : s1.labelCount ≤ s1.labelCount + 1) hl3),
      range'_one_off (by omega : s1.labelCount < s3.labelCount)]
    simp only [List.map_append, List.map_cons, List.map_nil, ← Multiset.coe_add,
      ld1, ld2, Multiset.coe_nil, List.append_nil]
    abel
  · rw [labelUses_append, labelUses_append, labelUses_append,
      (singles_ifnot cref (lName s1.labelCount)).2.2,
      (singles_label (lName s1.labelCount)).2.2,
      range'_split l1 (le_trans (by omega : s1.labelCount ≤ s1.labelCount + 1) hl3),
      range'_one_off (by omega : s1.labelCount < s3.labelCount)]
    simp only [List.map_append, List.map_cons, List.map_nil, ← Multiset.coe_add,
      lu1, lu2, Multiset.coe_nil, List.append_nil]
    abel

/-- The `if/else` lowering: condition, `ifnot … goto Lf`, then-branch,
`goto Le`, `Lf:`, else-branch, `Le:`. -/
theorem step_ifElse_glue {s s1 s3 s5 : GSt} {Δc Δt Δe : List Instr} (cref : String)
    (h1 : Step s s1 Δc)
    (h2 : Step ⟨s1.tempCount, s1.labelCount + 2,
        s1.tac ++ [.ifnotGoto cref (lName s1.labelCount)]⟩ s3 Δt)
    (h3 : Step ⟨s3.tempCount, s3.labelCount,
        s3.tac ++ [.goto (lName (s1.labelCount + 1)), .label (lName s1.labelCount)]⟩ s5 Δe) :
    Step s ⟨s5.tempCount, s5.labelCount, s5.tac ++ [.label (lName (s1.labelCount + 1))]⟩
      (Δc ++ [.ifnotGoto cref (lName s1.labelCount)] ++ Δt ++
        [.goto (lName (s1.labelCount + 1)), .label (lName s1.labelCount)] ++ Δe ++
        [.label (lName (s1.labelCount + 1))]) := by
  obtain ⟨t1, m1, l1, d1, ld1, lu1⟩ := h1
  obtain ⟨t2, m2, l2, d2, ld2, lu2⟩ := h2
  obtain ⟨t3, m3, l3, d3, ld3, lu3⟩ := h3
  unfold Step
  dsimp only at t2 m2 l2 d2 ld2 lu2 t3 m3 l3 d3 ld3 lu3 ⊢
  have hl3 : s1.labelCount + 2 ≤ s3.labelCount := l2
  have hl5 : s3.labelCount ≤ s5.labelCount := l3
  refine ⟨?_, le_trans m1 (le_trans m2 m3), by omega, ?_, ?_, ?_⟩
  · rw [t3, t2, t1]; simp [List.append_assoc]
  · rw [tempDests_append, tempDests_append, tempDests_append, tempDests_append,
      tempDests_append, d1, d2, d3,
      (singles_ifnot cref (lName s1.labelCount)).1,
      (singles_goto_label (lName (s1.labelCount + 1)) (lName s1.labelCount)).1,
      (singles_label (lName (s1.labelCount + 1))).1,
      range'_split m1 (le_trans m2 m3), range'_split m2 m3, List.map_append,
      List.map_append]
    simp
  · rw [labelDefs_append, labelDefs_append, labelDefs_append, labelDefs_append,
      labelDefs_append,
      (singles_ifnot cref (lName s1.labelCount)).2.1,
      (singles_goto_label (lName (s1.labelCount + 1)) (lName s1.labelCount)).2.1,
      (singles_label (lName (s1.labelCount + 1))).2.1,
      range'_split l1 (le_trans (by omega : s1.labelCount ≤ s1.labelCount + 2)
        (le_trans hl3 hl5)),
      range'_two_off (by omega : s1.labelCount + 2 ≤ s5.labelCount),
      range'_split hl3 hl5]
    simp only [List.map_append, List.map_cons, List.map_nil, ← Multiset.coe_add,
      ld1, ld2, ld3, Multiset.coe_nil, List.append_nil]
    abel
  · rw [labelUses_append, labelUses_append, labelUses_append, labelUses_append,
      labelUses_append,
      (singles_ifnot cref (lName s1.labelCount)).2.2,
      (singles_goto_label (lName (s1.labelCount + 1)) (lName s1.labelCount)).2.2,
      (singles_label (lName (s1.labelCount + 1))).2.2,
      range'_split l1 (le_trans (by omega : s1.labelCount ≤ s1.labelCount + 2)
        (le_trans hl3 hl5)),
      range'_two_off (by omega : s1.labelCount + 2 ≤ s5.labelCount),
      range'_split hl3 hl5]
    simp only [List.map_append, List.map_cons, List.map_nil, ← Multiset.coe_add,
      lu1, lu2, lu3, Multiset.coe_nil, List.append_nil]
    abel

/-- The `while` lowering: `Ls:`, condition, `ifnot … goto Le`, body,
`goto Ls`, `Le:` (both labels are allocated up front). -/
theorem step_while_glue {s s2 s4 : GSt} {Δc Δb : List Instr} (cref : String)
    (h1 : Step ⟨s.tempCount, s.labelCount + 2, s.tac ++ [.label (lName s.labelCount)]⟩ s2 Δc)
    (h2 : Step ⟨s2.tempCount, s2.labelCount,
        s2.tac ++ [.ifnotGoto cref (lName (s.labelCount + 1))]⟩ s4 Δb) :
    Step s ⟨s4.tempCount, s4.labelCount,
        s4.tac ++ [.goto (lName s.labelCount), .label (lName (s.labelCount + 1))]⟩
      ([.label (lName s.labelCount)] ++ Δc ++ [.ifnotGoto cref (lName (s.labelCount + 1))] ++
        Δb ++ [.goto (lName s.labelCount), .label (lName (s.labelCount + 1))]) := by
  obtain ⟨t1, m1, l1, d1, ld1, lu1⟩ := h1
  obtain ⟨t2, m2, l2, d2, ld2, lu2⟩ := h2
  unfold Step
  dsimp only at t1 m1 l1 d1 ld1 lu1 t2 m2 l2 d2 ld2 lu2 ⊢
  have hl2 : s.labelCount + 2 ≤ s2.labelCount := l1
  have hl4 : s2.labelCount ≤ s4.labelCount := l2
  refine ⟨?_, le_trans m1 m2, by omega, ?_, ?_, ?_⟩
  · rw [t2, t1]; simp [List.append_assoc]
  · rw [tempDests_append, tempDests_append, tempDests_append, tempDests_append,
      d1, d2,
      (singles_label (lName s.labelCount)).1,
      (singles_ifnot cref (lName (s.labelCount + 1))).1,
      (singles_goto_label (lName s.labelCount) (lName (s.labelCount + 1))).1,
      range'_split m1 m2, List.map_append]
    simp
  · rw [labelDefs_append, labelDefs_append, labelDefs_append, labelDefs_append,
      (singles_label (lName s.labelCount)).2.1,
      (singles_ifnot cref (lName (s.labelCount + 1))).2.1,
      (singles_goto_label (lName s.labelCount) (lName (s.labelCount + 1))).2.1,
      range'_two_off (by omega : s.labelCount + 2 ≤ s4.labelCount),
      range'_split hl2 hl4]
    simp only [List.map_append, List.map_cons, List.map_nil, ← Multiset.coe_add,
      ld1, ld2, Multiset.coe_nil, List.append_nil]
    abel
  · rw [labelUses_append, labelUses_append, labelUses_append, labelUses_append,
      (singles_label (lName s.labelCount)).2.2,
      (singles_ifnot cref (lName (s.labelCount + 1))).2.2,
      (singles_goto_label (lName s.labelCount) (lName (s.labelCount + 1))).2.2,
      range'_two_off (by omega : s.labelCount + 2 ≤ s4.labelCount),
      range'_split hl2 hl4]
    simp only [List.map_append, List.map_cons, List.map_nil, ← Multiset.coe_add,
      lu1, lu2, Multiset.coe_nil, List.append_nil]
    abel

/-- The generator invariant holds for every node, node list and argument
list: proved by strong induction on the size of the (nested) AST. -/
theorem genTac_ok :
    (∀ a : Ast, GenOk a) ∧ ∀ l : List Ast, GenListOk l ∧ GenArgsOk l := by
  suffices h : ∀ n, (∀ a : Ast, sizeOf a ≤ n → GenOk a) ∧
      (∀ l : List Ast, sizeOf l ≤ n → GenListOk l ∧ GenArgsOk l) by
    exact ⟨fun a => (h (sizeOf a)).1 a le_rfl, fun l => (h (sizeOf l)).2 l le_rfl⟩
  intro n
  induction n using Nat.strong_induction_on with
  | _ n ih =>
    have gen1 : ∀ x : Ast, sizeOf x < n → GenOk x :=
      fun x hx => (ih (sizeOf x) hx).1 x le_rfl
    have gen2 : ∀ xs : List Ast, sizeOf xs < n → GenListOk xs :=
      fun xs hx => ((ih (sizeOf xs) hx).2 xs le_rfl).1
    have gen3 : ∀ xs : List Ast, sizeOf xs < n → GenArgsOk xs :=
      fun xs hx => ((ih (sizeOf xs) hx).2 xs le_rfl).2
    constructor
    · intro a ha
      cases a with
      | program ds =>
        have hds := gen2 ds (by simp at ha; omega)
        intro s
        obtain ⟨Δ, hΔ⟩ := hds s
        exact ⟨Δ, hΔ⟩
      | varDecl ty nm =>
        intro s
        exact ⟨_, step_emit s (.declare nm ty) rfl rfl rfl⟩
      | arrayDecl ty nm sz =>
        intro s
        exact ⟨_, step_emit s (.declareArr nm sz ty) rfl rfl rfl⟩
      | funDecl ty nm ps body =>
        have hb := gen1 body (by simp at ha; omega)
        intro s
        obtain ⟨Δ, hΔ⟩ := hb ⟨s.tempCount, s.labelCount, s.tac ++ [.funcHead nm]⟩
        exact ⟨_, step_trans (step_emit s (.funcHead nm) rfl rfl rfl) hΔ⟩
      | compound ds sts =>
        have h1 := gen2 ds (by simp at ha; omega)
        have h2 := gen2 sts (by simp at ha; omega)
        intro s
        obtain ⟨Δ1, hΔ1⟩ := h1 s
        obtain ⟨Δ2, hΔ2⟩ := h2 (genTacList ds s)
        exact ⟨_, step_trans hΔ1 hΔ2⟩
      | exprStmt e =>
        have he := gen1 e (by simp at ha; omega)
        intro s
        obtain ⟨Δ, hΔ⟩ := he s
        exact ⟨Δ, hΔ⟩
      | emptyStmt => exact fun s => ⟨[], step_nil s⟩
      | ifS cond body =>
        have hc := gen1 cond (by simp at ha; omega)
        have hb := gen1 body (by simp at ha; omega)
        intro s
        obtain ⟨Δc, h1⟩ := hc s
        obtain ⟨Δb, h2⟩ := hb _
        exact ⟨_, step_if_glue (refStr (genTac cond s).2) h1 h2⟩
      | ifElse cond tB eB =>
        have hc := gen1 cond (by simp at ha; omega)
        have ht := gen1 tB (by simp at ha; omega)
        have he := gen1 eB (by simp at ha; omega)
        intro s
        obtain ⟨Δc, h1⟩ := hc s
        obtain ⟨Δt, h2⟩ := ht _
        obtain ⟨Δe, h3⟩ := he _
        exact ⟨_, step_ifElse_glue (refStr (genTac cond s).2) h1 h2 h3⟩
      | whileS cond body =>
        have hc := gen1 cond (by simp at ha; omega)
        have hb := gen1 body (by simp at ha; omega)
        intro s
        obtain ⟨Δc, h1⟩ := hc ⟨s.tempCount, s.labelCount + 2, s.tac ++ [.label (lName s.labelCount)]⟩
        obtain ⟨Δb, h2⟩ := hb _
        exact ⟨_, step_while_glue (refStr (genTac cond ⟨s.tempCount, s.labelCount + 2,
          s.tac ++ [.label (lName s.labelCount)]⟩).2) h1 h2⟩
      | returnVoid => exact fun s => ⟨_, step_emit s .retVoid rfl rfl rfl⟩
      | returnE e =>
        have he := gen1 e (by simp at ha; omega)
        intro s
        obtain ⟨Δ, hΔ⟩ := he s
        exact ⟨_, step_trans hΔ
          (step_emit _ (.ret (refStr (genTac e s).2)) rfl rfl rfl)⟩
      | assign tgt val =>
        have hv := gen1 val (by simp at ha; omega)
        have htg := gen1 tgt (by simp at ha; omega)
        intro s
        obtain ⟨Δ1, h1⟩ := hv s
        obtain ⟨Δ2, h2⟩ := htg (genTac val s).1
        exact ⟨_, step_trans (step_trans h1 h2)
          (step_emit _ (.assign (refStr (genTac tgt (genTac val s).1).2)
            (refStr (genTac val s).2)) rfl rfl rfl)⟩
      | binop op l r =>
        have hl := gen1 l (by simp at ha; omega)
        have hr := gen1 r (by simp at ha; omega)
        intro s
        obtain ⟨Δ1, h1⟩ := hl s
        obtain ⟨Δ2, h2⟩ := hr (genTac l s).1
        exact ⟨_, step_trans (step_trans h1 h2)
          (step_emitTemp _ (refStr (genTac l s).2) op
            (refStr (genTac r (genTac l s).1).2))⟩
      | var nm => exact fun s => ⟨[], step_nil s⟩
      | arrayRef nm ix =>
        have hix := gen1 ix (by simp at ha; omega)
        intro s
        obtain ⟨Δ, hΔ⟩ := hix s
        exact ⟨Δ, hΔ⟩
      | call f args =>
        have hargs := gen3 args (by simp at ha; omega)
        intro s
        obtain ⟨Δ1, h1⟩ := hargs s
        exact ⟨_, step_trans
          (step_trans h1 (step_params _ (genArgs args s).2))
          (step_emitCall _ f (genArgs args s).2.length)⟩
      | num v => exact fun s => ⟨[], step_nil s⟩
    · intro l hl
      constructor
      · cases l with
        | nil => exact fun s => ⟨[], step_nil s⟩
        | cons a rest =>
          have ha := gen1 a (by simp at hl; omega)
          have hrest := gen2 rest (by simp at hl; omega)
          intro s
          obtain ⟨Δ1, h1⟩ := ha s
          obtain ⟨Δ2, h2⟩ := hrest (genTac a s).1
          exact ⟨_, step_trans h1 h2⟩
      · cases l with
        | nil => exact fun s => ⟨[], step_nil s⟩
        | cons a rest =>
          have ha := gen1 a (by simp at hl; omega)
          have hrest := gen3 rest (by simp at hl; omega)
          intro s
          obtain ⟨Δ1, h1⟩ := ha s
          obtain ⟨Δ2, h2⟩ := hrest (genTac a s).1
          exact ⟨_, step_trans h1 h2⟩

/-! ### Symbol-table algebra (for the redeclaration claim) -/

/-- Python dict assignment then lookup: the new value for the written
key, the old mapping elsewhere. -/
theorem symLookup_symInsert (st : SymTab) (n name : String) (e : Entry) :
    symLookup (symInsert st n e) name =
      if n = name then some e else symLookup st name := by
  induction st with
  | nil =>
    by_cases h : n = name <;> simp [symInsert, symLookup, h]
  | cons kv t ih =>
    obtain ⟨k, v⟩ := kv
    by_cases hk : k = n
    · subst hk
      by_cases hn : k = name <;> simp [symInsert, symLookup, hn]
    · by_cases hn : k = name
      · subst hn
        have hnk : ¬n = k := fun h => hk h.symm
        simp [symInsert, symLookup, hk, hnk]
      · simp [symInsert, symLookup, hk, hn, ih]

/-- Folding the parser's reduction-time writes over a declaration list:
the lookup afterwards returns the entry of the last declaration of the
name, and falls back to the prior table when the name is not declared. -/
theorem processDecls_last (ds : List Ast) :
    ∀ (st : SymTab) (name : String),
      symLookup (processDecls ds st) name =
        (lastDeclEntry name ds).or (symLookup st name) := by
  induction ds with
  | nil => intro st name; simp [processDecls, lastDeclEntry]
  | cons d ds ih =>
    intro st name
    have h1 : processDecls (d :: ds) st = processDecls ds (recordDecl d st) := rfl
    rw [h1, ih, lastDeclEntry, Option.or_assoc]
    congr 1
    cases hd : declEntryOf d with
    | none => simp [recordDecl, hd]
    | some p =>
      obtain ⟨m, e⟩ := p
      rw [recordDecl, hd]
      rw [symLookup_symInsert]
      by_cases hm : m = name
      · simp [hm]
      · simp [hm]

/-! ### Whitespace/comment-only inputs lex to nothing -/

theorem wsCommentOnly_dropNl (cs : List Char) (h : wsCommentOnly cs = true) :
    wsCommentOnly (cs.dropWhile (fun c => c = '\n')) = true := by
  induction cs with
  | nil => exact h
  | cons c cs ih =>
    by_cases hc : c = '\n'
    · subst hc
      rw [List.dropWhile_cons, if_pos (by simp)]
      exact ih h
    · rwa [List.dropWhile_cons, if_neg (by simp [hc])]

theorem wsInComment_dropWhile (r : List Char) (h : wsInComment r = true) :
    wsCommentOnly (r.dropWhile (fun c => !(c = '\n'))) = true := by
  induction r with
  | nil => exact h
  | cons c r ih =>
    by_cases hc : c = '\n'
    · subst hc
      rw [List.dropWhile_cons, if_neg (by simp)]
      exact h
    · rw [List.dropWhile_cons, if_pos (by simp [hc])]
      refine ih ?_
      have h' : wsScan true (c :: r) = true := h
      rw [show wsScan true (c :: r) =
        if c = '\n' then wsScan false r else wsScan true r from rfl] at h'
      rwa [if_neg hc] at h'

/-- The PLY lexer produces no token and no diagnostic on an input of
whitespace and line comments only. -/
theorem tokenizeAux_ws (fuel : Nat) :
    ∀ (cs : List Char) (line : Nat), cs.length < fuel →
      wsCommentOnly cs = true → tokenizeAux fuel cs line = ([], []) := by
  induction fuel with
  | zero => intro cs line h _; omega
  | succ fuel ih =>
    intro cs line hlen hws
    cases cs with
    | nil => rfl
    | cons c cs' =>
      by_cases h1 : c = ' '
      · subst h1
        exact ih cs' line (by simp at hlen; omega) hws
      · by_cases h2 : c = '\t'
        · subst h2
          exact ih cs' line (by simp at hlen; omega) hws
        · by_cases h3 : c = '\n'
          · subst h3
            have hlen' : (cs'.dropWhile (fun c => c = '\n')).length < fuel := by
              have := (List.dropWhile_sublist (l := cs') (fun c => c = '\n')).length_le
              simp at hlen
              omega
            exact ih _ _ hlen' (wsCommentOnly_dropNl cs' hws)
          · by_cases h4 : c = '/'
            · subst h4
              cases cs' with
              | nil => exact absurd hws (by decide)
              | cons c2 r =>
                by_cases h5 : c2 = '/'
                · subst h5
                  have hlen' : (r.dropWhile (fun c => !(c = '\n'))).length < fuel := by
                    have := (List.dropWhile_sublist (l := r) (fun c => !(c = '\n'))).length_le
                    simp at hlen
                    omega
                  exact ih _ _ hlen' (wsInComment_dropWhile r hws)
                · simp only [wsCommentOnly] at hws
                  rw [wsScan.eq_def] at hws
                  split at hws
                  all_goals try simp_all
                  all_goals
                    rename_i heq
                    obtain ⟨h6, h7⟩ := heq
                    subst h6
                    simp_all
            · simp only [wsCommentOnly] at hws
              rw [wsScan.eq_def] at hws
              split at hws
              all_goals try simp_all
              all_goals
                rename_i heq
                obtain ⟨h6, h7⟩ := heq
                subst h6
                simp_all

/-! ## The claims -/

/-- C1 (counterexample): the end-to-end example input does NOT compile to
the claimed TAC through `MiniCCompiler.compile`: the top-level grammar
accepts only declarations, so the statement `x = 5 + 3;` triggers a
syntax error at the token `ID ('x')`, the parse returns no AST, and the
result carries an empty TAC list. -/
theorem claim_C1_counterexample :
    (compile c1input).tac = [] ∧
    (compile c1input).tac ≠ c1expected ∧
    (compile c1input).errors = ["Syntax error at token ID ('x') at line 1"] :=
  ⟨rfl, by decide, rfl⟩

/-- C1 (amended): lowering the example program's AST directly through
`generate_tac` with both counters at zero yields exactly the claimed
eleven-instruction sequence. -/
theorem claim_C1_amended :
    ((genTac c1ast gSt0).1.tac).map Instr.render = c1expected := rfl

/-- C2 (amended): an input of whitespace and line comments only lexes to
no token and no lexical diagnostic, but the empty token stream is a
syntax error for the declaration-list grammar, so the diagnostics list
is exactly ["Syntax error at EOF"], not empty. -/
theorem claim_C2_amended (s : String) (h : wsCommentOnly s.data = true) :
    (compile s).tokens = [] ∧ (compile s).errors = ["Syntax error at EOF"] := by
  have htok : tokenizeStr s = ([], []) := by
    unfold tokenizeStr
    exact tokenizeAux_ws (s.data.length + 1) s.data 1 (by omega) h
  have hc : compile s = ⟨[], none, [], [], ["Syntax error at EOF"]⟩ := by
    unfold compile
    rw [htok]
    rfl
  rw [hc]
  exact ⟨rfl, rfl⟩

/-- C2 (witness): the amended claim at the concrete whitespace/comment
input `" \t// note\n"`. -/
theorem claim_C2_witness :
    wsCommentOnly " \t// note\n".data = true ∧
    (compile " \t// note\n").tokens = [] ∧
    (compile " \t// note\n").errors = ["Syntax error at EOF"] :=
  ⟨rfl, (claim_C2_amended " \t// note\n" rfl).1, (claim_C2_amended " \t// note\n" rfl).2⟩

/-- C2 (counterexample): on the whitespace-only input `" "` the token
list is empty but the diagnostics list is NOT empty, refuting the claim
that no diagnostics are produced. -/
theorem claim_C2_counterexample :
    (compile " ").tokens = [] ∧
    (compile " ").errors = ["Syntax error at EOF"] ∧
    (compile " ").errors ≠ [] :=
  ⟨rfl, rfl, by decide⟩

/-- C3 (counterexample): the zero-size array declaration `int a[0];` is
ACCEPTED: no diagnostic is produced and a symbol-table entry with size 0
is created, refuting the claim that zero sizes are rejected. -/
theorem claim_C3_counterexample :
    (compile "int a[0];").errors = [] ∧
    symLookup (compile "int a[0];").symtab "a" = some (.arrE "int" (.intV 0)) :=
  ⟨rfl, rfl⟩

/-- C3 (amended): a negative literal size is rejected — the minus sign
is lexed as its own `MINUS` token, which the grammar's `[ NUMBER ]` slot
rejects as a syntax error, so no entry and no TAC are produced; a zero
literal size is accepted silently with a size-0 entry and its `declare`
instruction. -/
theorem claim_C3_amended :
    (compile "int a[-1];").errors = ["Syntax error at token MINUS ('-') at line 1"] ∧
    (compile "int a[-1];").symtab = [] ∧
    (compile "int a[-1];").tac = [] ∧
    (compile "int a[0];").errors = [] ∧
    (compile "int a[0];").symtab = [("a", .arrE "int" (.intV 0))] ∧
    (compile "int a[0];").tac = ["declare a[0] as int"] :=
  ⟨rfl, rfl, rfl, rfl, rfl, rfl⟩

/-- C4 (counterexample): in the mini.py variant, labels are drawn from
`new_temp`, so lowering its own demo program emits the label `t3` — a
generated label that is not named `L0, L1, L2, …`. -/
theorem claim_C4_counterexample :
    (miniGenProgram miniDemoDecls miniDemoStmts 0).1 =
      ["t0 = 5 + 3", "x = t0", "ifnot x goto t3", "t1 = x - 1", "x = t1",
       "goto t4", "label t3", "t2 = x + 1", "x = t2", "label t4"] ∧
    "label t3" ∈ (miniGenProgram miniDemoDecls miniDemoStmts 0).1 ∧
    ∀ k : Nat, lName k ≠ "t3" :=
  ⟨rfl, by decide, fun k => lPrefix_ne_t3 (toString k)⟩

/-- C4 (amended): within one `MiniCCompiler` compilation (`generate_tac`
from zeroed counters), the temporaries allocated are exactly
`t0, t1, …` in order and without repetition, the labels defined and
jumped to are exactly `L0, L1, …` without repetition, and both counters
only ever increase across every `generate_tac` call; in the mini.py
variant labels share the temporary counter and are `t`-named (see the
counterexample). -/
theorem claim_C4_amended (a : Ast) :
    (∀ s : GSt, s.tempCount ≤ (genTac a s).1.tempCount ∧
      s.labelCount ≤ (genTac a s).1.labelCount) ∧
    tempDests (genTac a gSt0).1.tac =
      (List.range (genTac a gSt0).1.tempCount).map tName ∧
    (tempDests (genTac a gSt0).1.tac).Nodup ∧
    ((labelDefs (genTac a gSt0).1.tac : Multiset String) =
      (((List.range (genTac a gSt0).1.labelCount).map lName : List String) : Multiset String)) ∧
    (labelDefs (genTac a gSt0).1.tac).Nodup ∧
    ((labelUses (genTac a gSt0).1.tac : Multiset String) =
      (((List.range (genTac a gSt0).1.labelCount).map lName : List String) : Multiset String)) ∧
    (labelUses (genTac a gSt0).1.tac).Nodup := by
  obtain ⟨Δ, h⟩ := genTac_ok.1 a gSt0
  obtain ⟨htac, hmt, hml, hd, hld, hlu⟩ := h
  have h0 : (genTac a gSt0).1.tac = Δ := by simpa [gSt0] using htac
  have hr : ∀ k : Nat, List.range' gSt0.labelCount (k - gSt0.labelCount) = List.range k := by
    intro k
    show List.range' 0 (k - 0) = List.range k
    rw [Nat.sub_zero, List.range_eq_range']
  have hrt : ∀ k : Nat, List.range' gSt0.tempCount (k - gSt0.tempCount) = List.range k := by
    intro k
    show List.range' 0 (k - 0) = List.range k
    rw [Nat.sub_zero, List.range_eq_range']
  have hdefs : List.Perm (labelDefs Δ) ((List.range (genTac a gSt0).1.labelCount).map lName) := by
    refine Multiset.coe_eq_coe.mp ?_
    rw [hld, hr]
  have huses : List.Perm (labelUses Δ) ((List.range (genTac a gSt0).1.labelCount).map lName) := by
    refine Multiset.coe_eq_coe.mp ?_
    rw [hlu, hr]
  have hrngNodup : ((List.range (genTac a gSt0).1.labelCount).map lName).Nodup :=
    (List.nodup_range _).map lName_injective
  refine ⟨?_, ?_, ?_, ?_, ?_, ?_, ?_⟩
  · intro s
    obtain ⟨Δ', h'⟩ := genTac_ok.1 a s
    exact ⟨h'.2.1, h'.2.2.1⟩
  · rw [h0, hd, hrt]
  · rw [h0, hd, hrt]
    exact (List.nodup_range _).map tName_injective
  · rw [h0, hld, hr]
  · rw [h0]
    exact hdefs.nodup_iff.mpr hrngNodup
  · rw [h0, hlu, hr]
  · rw [h0]
    exact huses.nodup_iff.mpr hrngNodup

/-- C5: lowering an `if/else` node allocates exactly the two fresh
labels `Lfalse = L(label_count)` and `Lend = L(label_count + 1)` (taken
after the condition is lowered) and emits: condition code, `ifnot cond
goto Lfalse`, the then-branch strictly between that jump and
`goto Lend`, then `Lfalse:`, the else-branch strictly between `Lfalse:`
and `Lend:`, then `Lend:`. -/
theorem claim_C5 (cond tB eB : Ast) (s : GSt) :
    ∃ Δc Δt Δe : List Instr,
      let r1 := genTac cond s
      let cref := refStr r1.2
      let lf := lName r1.1.labelCount
      let le := lName (r1.1.labelCount + 1)
      let s2 : GSt := ⟨r1.1.tempCount, r1.1.labelCount + 2, r1.1.tac ++ [.ifnotGoto cref lf]⟩
      let r3 := genTac tB s2
      let s4 : GSt := { r3.1 with tac := r3.1.tac ++ [.goto le, .label lf] }
      let r5 := genTac eB s4
      r1.1.tac = s.tac ++ Δc ∧
      r3.1.tac = s2.tac ++ Δt ∧
      r5.1.tac = s4.tac ++ Δe ∧
      s.labelCount ≤ r1.1.labelCount ∧
      genTac (.ifElse cond tB eB) s = ({ r5.1 with tac := r5.1.tac ++ [.label le] }, none) ∧
      (genTac (.ifElse cond tB eB) s).1.tac =
        s.tac ++ Δc ++ [.ifnotGoto cref lf] ++ Δt ++ [.goto le] ++ [.label lf] ++
          Δe ++ [.label le] := by
  obtain ⟨Δc, hc⟩ := genTac_ok.1 cond s
  obtain ⟨Δt, ht⟩ := genTac_ok.1 tB
    ⟨(genTac cond s).1.tempCount, (genTac cond s).1.labelCount + 2,
      (genTac cond s).1.tac ++
        [.ifnotGoto (refStr (genTac cond s).2) (lName (genTac cond s).1.labelCount)]⟩
  obtain ⟨Δe, he⟩ := genTac_ok.1 eB _
  refine ⟨Δc, Δt, Δe, hc.1, ht.1, he.1, hc.2.2.1, rfl, ?_⟩
  rw [show (genTac (.ifElse cond tB eB) s).1.tac
      = (genTac eB _).1.tac ++ [.label (lName ((genTac cond s).1.labelCount + 1))] from rfl,
    he.1, ht.1, hc.1]
  simp [List.append_assoc]

/-- C6: lowering a binary operation emits the left operand's code, then
the right operand's, then allocates one fresh temporary and appends
`temp = Lref op Rref`, returning that temporary; consequently
`"2 + 3 * 4"` (inside a function body, where expressions are parseable)
lowers so the multiplication's temporary `t0` is computed first
and consumed by the addition instruction `t1 = 2 + t0`. -/
theorem claim_C6 :
    (∀ (op : String) (l r : Ast) (s : GSt),
      ∃ Δl Δr : List Instr,
        (genTac l s).1.tac = s.tac ++ Δl ∧
        (genTac r (genTac l s).1).1.tac = (genTac l s).1.tac ++ Δr ∧
        genTac (.binop op l r) s =
          (⟨(genTac r (genTac l s).1).1.tempCount + 1,
            (genTac r (genTac l s).1).1.labelCount,
            s.tac ++ Δl ++ Δr ++
              [.binop (tName (genTac r (genTac l s).1).1.tempCount)
                (refStr (genTac l s).2) op (refStr (genTac r (genTac l s).1).2)]⟩,
           some (tName (genTac r (genTac l s).1).1.tempCount))) ∧
    (compile "int f() \x7b 2 + 3 * 4; \x7d").tac =
      ["function f:", "t0 = 3 * 4", "t1 = 2 + t0"] ∧
    (compile "int f() \x7b 2 + 3 * 4; \x7d").errors = [] := by
  refine ⟨?_, rfl, rfl⟩
  intro op l r s
  obtain ⟨Δl, h1⟩ := genTac_ok.1 l s
  obtain ⟨Δr, h2⟩ := genTac_ok.1 r (genTac l s).1
  refine ⟨Δl, Δr, h1.1, h2.1, ?_⟩
  have h3 : (genTac r (genTac l s).1).1.tac = s.tac ++ Δl ++ Δr := by
    rw [h2.1, h1.1]
  rw [← h3]
  rfl

/-- C7: the parser records declarations by an unconditional dict write,
so for every name declared several times the last declaration's entry is
the one found afterwards, with no diagnostic; concretely,
`int x; float x;` compiles with no error, two `declare` instructions,
and `x` mapped to the later `float` variable entry. -/
theorem claim_C7 :
    (∀ (ds : List Ast) (st : SymTab) (name : String),
      symLookup (processDecls ds st) name =
        (lastDeclEntry name ds).or (symLookup st name)) ∧
    (compile "int x; float x;").errors = [] ∧
    (compile "int x; float x;").symtab = [("x", .varE "float")] ∧
    (compile "int x; float x;").tac = ["declare x as int", "declare x as float"] :=
  ⟨fun ds => processDecls_last ds, rfl, rfl, rfl⟩

/-- C8: `compile` always returns a structured result: the token list is
the lexer's output regardless of how parsing goes, the TAC and
symbol-table fields are empty whenever no AST root was produced, and
every lexical error and every parse diagnostic appears in the errors
list. -/
theorem claim_C8 (s : String) :
    (compile s).tokens = (tokenizeStr s).1 ∧
    ((compile s).ast = none → (compile s).tac = [] ∧ (compile s).symtab = []) ∧
    (∀ e, e ∈ (tokenizeStr s).2 → e ∈ (compile s).errors) ∧
    (∀ e, e ∈ (runParse (tokenizeStr s).1).errs → e ∈ (compile s).errors) := by
  rcases hast : (runParse (tokenizeStr s).1).ast with _ | a <;>
    simp [compile, hast] <;>
    exact ⟨fun e he => Or.inl he, fun e he => Or.inr he⟩

/-- C8 (witness): the structured result at the failing input `"x"`. -/
theorem claim_C8_witness :
    ((compile "x").tac = [] ∧ (compile "x").symtab = []) ∧
    "Syntax error at token ID ('x') at line 1" ∈ (compile "x").errors :=
  ⟨(claim_C8 "x").2.1 rfl,
   (claim_C8 "x").2.2.2 "Syntax error at token ID ('x') at line 1" (by decide)⟩

/-- C9: in the TAC emitted for any AST from zeroed counters, every label
targeted by a `goto` or `ifnot … goto` is defined exactly once by a
`L:` instruction of the same list, and every defined label is the
target of at least one jump. -/
theorem claim_C9 (a : Ast) :
    (∀ lbl, lbl ∈ labelUses (genTac a gSt0).1.tac →
      (labelDefs (genTac a gSt0).1.tac).count lbl = 1) ∧
    ∀ lbl, lbl ∈ labelDefs (genTac a gSt0).1.tac →
      lbl ∈ labelUses (genTac a gSt0).1.tac := by
  obtain ⟨Δ, h⟩ := genTac_ok.1 a gSt0
  obtain ⟨htac, hmt, hml, hd, hld, hlu⟩ := h
  have h0 : (genTac a gSt0).1.tac = Δ := by simpa [gSt0] using htac
  have hr : List.range' gSt0.labelCount ((genTac a gSt0).1.labelCount - gSt0.labelCount) =
      List.range (genTac a gSt0).1.labelCount := by
    show List.range' 0 ((genTac a gSt0).1.labelCount - 0) = List.range (genTac a gSt0).1.labelCount
    rw [Nat.sub_zero, List.range_eq_range']
  have hdefs : List.Perm (labelDefs Δ) ((List.range (genTac a gSt0).1.labelCount).map lName) :=
    Multiset.coe_eq_coe.mp (by rw [hld, hr])
  have huses : List.Perm (labelUses Δ) ((List.range (genTac a gSt0).1.labelCount).map lName) :=
    Multiset.coe_eq_coe.mp (by rw [hlu, hr])
  have hrngNodup : ((List.range (genTac a gSt0).1.labelCount).map lName).Nodup :=
    (List.nodup_range _).map lName_injective
  constructor
  · intro lbl hmem
    rw [h0] at hmem ⊢
    have h1 : lbl ∈ (List.range (genTac a gSt0).1.labelCount).map lName :=
      huses.mem_iff.mp hmem
    rw [hdefs.count_eq lbl]
    exact List.count_eq_one_of_mem hrngNodup h1
  · intro lbl hmem
    rw [h0] at hmem ⊢
    exact huses.mem_iff.mpr (hdefs.mem_iff.mp hmem)

/-- C9 (witness): for `if (x) ;` lowered from zeroed counters, the one
jump target `L0` is defined exactly once and the one defined label is
jumped to. -/
theorem claim_C9_witness :
    ("L0" ∈ labelUses (genTac (.ifS (.var "x") .emptyStmt) gSt0).1.tac ∧
      (labelDefs (genTac (.ifS (.var "x") .emptyStmt) gSt0).1.tac).count "L0" = 1) ∧
    ("L0" ∈ labelDefs (genTac (.ifS (.var "x") .emptyStmt) gSt0).1.tac ∧
      "L0" ∈ labelUses (genTac (.ifS (.var "x") .emptyStmt) gSt0).1.tac) :=
  ⟨⟨by decide, (claim_C9 (.ifS (.var "x") .emptyStmt)).1 "L0" (by decide)⟩,
   ⟨by decide, (claim_C9 (.ifS (.var "x") .emptyStmt)).2 "L0" (by decide)⟩⟩

/-- C10: lowering `a[i] = v` emits the value's code first, then the
index's code (inside the lowering of the target reference, which itself
emits no load and returns the composite reference `a[iRef]`), and
finally appends `a[iRef] = vRef`. -/
theorem claim_C10 (nm : String) (idx value : Ast) (s : GSt) :
    ∃ Δv Δi : List Instr,
      (genTac value s).1.tac = s.tac ++ Δv ∧
      (genTac idx (genTac value s).1).1.tac = (genTac value s).1.tac ++ Δi ∧
      genTac (.arrayRef nm idx) (genTac value s).1 =
        ((genTac idx (genTac value s).1).1,
         some (nm ++ "[" ++ refStr (genTac idx (genTac value s).1).2 ++ "]")) ∧
      (genTac (.assign (.arrayRef nm idx) value) s).1.tac =
        s.tac ++ Δv ++ Δi ++
          [.assign (nm ++ "[" ++ refStr (genTac idx (genTac value s).1).2 ++ "]")
            (refStr (genTac value s).2)] := by
  obtain ⟨Δv, hv⟩ := genTac_ok.1 value s
  obtain ⟨Δi, hi⟩ := genTac_ok.1 idx (genTac value s).1
  refine ⟨Δv, Δi, hv.1, hi.1, rfl, ?_⟩
  have h3 : (genTac idx (genTac value s).1).1.tac = s.tac ++ Δv ++ Δi := by
    rw [hi.1, hv.1]
  rw [show (genTac (.assign (.arrayRef nm idx) value) s).1.tac
      = (genTac idx (genTac value s).1).1.tac ++
        [.assign (nm ++ "[" ++ refStr (genTac idx (genTac value s).1).2 ++ "]")
          (refStr (genTac value s).2)] from rfl,
    h3]

end MiniC
